import Mathlib

set_option maxHeartbeats 1000000

/-!
Verification of `TamlBinaryWriter` (engine/source/persistence/taml/tamlBinaryWriter.cc).

The writer serializes a tree of `TamlWriteNode` objects into a binary stream.
We embed the stream as a list of abstract write calls (`WItem`): each constructor
records one call on the underlying `Stream` together with its payload, in order.
`AssertFatal` (whose macro lives outside this file's source, in debug/) is modelled
from the spec as a fail-fast abort: an encoder returns `none` when an assertion
fires and nothing further is emitted.
-/

namespace TamlBinary

/-- One write call on the underlying `Stream`:
`wstr` is `Stream::writeString` (length-prefixed string),
`wlong b s` is `Stream::writeLongString(b, s)` (length-prefixed, bounded to `b`),
`wu32` is a fixed-width 32-bit integer write, `wbool` a boolean write. -/
inductive WItem where
  | wstr : String → WItem
  | wlong : Nat → String → WItem
  | wu32 : Nat → WItem
  | wbool : Bool → WItem
  deriving DecidableEq, Repr

/-- A `TamlWriteNode::FieldValuePair` (tamlWriteNode.h): field name and
pre-stringified value. -/
structure FieldValuePair where
  mName : String
  mpValue : String
  deriving DecidableEq, Repr

/-- A `TamlCustomNodeField` (tamlCustom.h): custom-node field name and value,
as returned by `getFieldName()` / `getFieldValue()`. -/
structure TamlCustomNodeField where
  mFieldName : String
  mFieldValue : String
  deriving DecidableEq, Repr

mutual
/-- A `TamlWriteNode` (tamlWriteNode.h). `className` stands for
`mpSimObject->getClassName()`, the only part of the wrapped `SimObject` the
writer reads. `mpObjectName` is `NULL` or a name (`none` models `NULL`).
`mRefToNode` is the backreference target; `mChildren` is a possibly-`NULL`
vector of owned children. -/
inductive TamlWriteNode where
  | mk : (className : String) → (mpObjectName : Option String) → (mRefId : Nat) →
      (mRefToNode : Option TamlWriteNode) → (mFields : List FieldValuePair) →
      (mChildren : Option (List TamlWriteNode)) →
      (mCustomNodes : List TamlCustomNode) → TamlWriteNode

/-- A `TamlCustomNode` (tamlCustom.h). `proxyWriteNode` is `some` exactly when
`isProxyObject()` holds, and is then the node returned by
`getProxyWriteNode()`; `children`/`fields` are `getChildren()`/`getFields()`. -/
inductive TamlCustomNode where
  | mk : (mNodeName : String) → (proxyWriteNode : Option TamlWriteNode) →
      (children : List TamlCustomNode) → (fields : List TamlCustomNodeField) →
      TamlCustomNode
end

def TamlWriteNode.className : TamlWriteNode → String
  | .mk c _ _ _ _ _ _ => c

def TamlWriteNode.mpObjectName : TamlWriteNode → Option String
  | .mk _ o _ _ _ _ _ => o

def TamlWriteNode.mRefId : TamlWriteNode → Nat
  | .mk _ _ r _ _ _ _ => r

def TamlWriteNode.mRefToNode : TamlWriteNode → Option TamlWriteNode
  | .mk _ _ _ r _ _ _ => r

def TamlWriteNode.mFields : TamlWriteNode → List FieldValuePair
  | .mk _ _ _ _ f _ _ => f

def TamlWriteNode.mChildren : TamlWriteNode → Option (List TamlWriteNode)
  | .mk _ _ _ _ _ c _ => c

def TamlWriteNode.mCustomNodes : TamlWriteNode → List TamlCustomNode
  | .mk _ _ _ _ _ _ n => n

def TamlCustomNode.mNodeName : TamlCustomNode → String
  | .mk n _ _ _ => n

def TamlCustomNode.proxyWriteNode : TamlCustomNode → Option TamlWriteNode
  | .mk _ p _ _ => p

def TamlCustomNode.children : TamlCustomNode → List TamlCustomNode
  | .mk _ _ c _ => c

def TamlCustomNode.fields : TamlCustomNode → List TamlCustomNodeField
  | .mk _ _ _ f => f

/-- Embeds `TamlCustomNode::isProxyObject()`: whether the node wraps a proxy object. -/
def TamlCustomNode.isProxyObject (n : TamlCustomNode) : Bool :=
  n.proxyWriteNode.isSome

/-- Modelled from the spec: `MAX_TAML_NODE_FIELDVALUE_LENGTH` (tamlCustom.h, not
under src/) is "a larger configured maximum" for custom-node field values.
Only the identity of the bound matters to the writer, never its numeric value. -/
def MAX_TAML_NODE_FIELDVALUE_LENGTH : Nat := 8192

/-- Embeds `TamlBinaryWriter::writeAttributes`: writes the field count as a `U32`,
returns if there are no fields, otherwise writes for each field the name
(`writeString`) and the value (`writeLongString(4096, ...)`), in order. -/
def writeAttributes (pTamlWriteNode : TamlWriteNode) : List WItem :=
  let fields := pTamlWriteNode.mFields
  if fields.length = 0 then
    [WItem.wu32 fields.length]
  else
    WItem.wu32 fields.length ::
      fields.flatMap (fun pFieldValue =>
        [WItem.wstr pFieldValue.mName, WItem.wlong 4096 pFieldValue.mpValue])

/-- The element header written by both branches of `writeElement`: the class
name (`pSimObject->getClassName()`), the object name with the empty string as
the `NULL` sentinel, and the node's reference id. -/
def elementHeader (n : TamlWriteNode) : List WItem :=
  [WItem.wstr n.className,
   WItem.wstr (n.mpObjectName.getD ""),
   WItem.wu32 n.mRefId]

mutual
/-- Embeds `TamlBinaryWriter::writeElement`: writes the class name, the object name
(empty string when `NULL`), and the reference id; when `mRefToNode` is set,
asserts the target id is nonzero (abort modelled as `none`), writes it, and
returns; otherwise writes a literal `0` then attributes, children and custom
elements. -/
def writeElement (n : TamlWriteNode) : Option (List WItem) :=
  let header : List WItem := elementHeader n
  match n.mRefToNode with
  | some target =>
      if target.mRefId = 0 then none
      else some (header ++ [WItem.wu32 target.mRefId])
  | none => do
      let childItems ← writeChildren n
      let customItems ← writeCustomElements n
      pure (header ++ [WItem.wu32 0] ++ writeAttributes n ++ childItems ++ customItems)
termination_by (sizeOf n, 1)
decreasing_by
  all_goals exact Prod.Lex.right _ (by omega)

/-- Embeds `TamlBinaryWriter::writeChildren`: a `NULL` children vector writes the single
count `0`; otherwise the count then each child element in order. -/
def writeChildren : TamlWriteNode → Option (List WItem)
  | TamlWriteNode.mk _ _ _ _ _ none _ => some [WItem.wu32 0]
  | TamlWriteNode.mk _ _ _ _ _ (some pChildren) _ => do
      let body ← writeElementList pChildren
      pure (WItem.wu32 pChildren.length :: body)
termination_by n => (sizeOf n, 0)
decreasing_by
  all_goals (simp_wf; apply Prod.Lex.left; omega)

/-- The iteration over a children vector inside `writeChildren`. -/
def writeElementList : List TamlWriteNode → Option (List WItem)
  | [] => pure []
  | c :: rest => do
      let x ← writeElement c
      let xs ← writeElementList rest
      pure (x ++ xs)
termination_by l => (sizeOf l, 0)
decreasing_by
  all_goals (simp_wf; apply Prod.Lex.left; omega)

/-- Embeds `TamlBinaryWriter::writeCustomElements`: writes the custom-node count then
each custom node in order (the early return at count zero emits the same
bytes as the empty loop). -/
def writeCustomElements : TamlWriteNode → Option (List WItem)
  | TamlWriteNode.mk _ _ _ _ _ _ nodes => do
      let body ← writeCustomNodeList nodes
      pure (WItem.wu32 nodes.length :: body)
termination_by n => (sizeOf n, 0)
decreasing_by
  all_goals (simp_wf; apply Prod.Lex.left; omega)

/-- The iteration over a custom-node vector inside `writeCustomElements` and
`writeCustomNode`. -/
def writeCustomNodeList : List TamlCustomNode → Option (List WItem)
  | [] => pure []
  | c :: rest => do
      let x ← writeCustomNode c
      let xs ← writeCustomNodeList rest
      pure (x ++ xs)
termination_by l => (sizeOf l, 0)
decreasing_by
  all_goals (simp_wf; apply Prod.Lex.left; omega)

/-- Embeds `TamlBinaryWriter::writeCustomNode`: writes the node name; on a proxy node
writes flag `true` then the wrapped element and returns; otherwise writes flag
`false`, the child custom-node count and children, then the field count and
fields (values bounded to `MAX_TAML_NODE_FIELDVALUE_LENGTH`). -/
def writeCustomNode : TamlCustomNode → Option (List WItem)
  | TamlCustomNode.mk mNodeName (some proxyNode) _ _ => do
      let e ← writeElement proxyNode
      pure (WItem.wstr mNodeName :: WItem.wbool true :: e)
  | TamlCustomNode.mk mNodeName none nodeChildren nodeFields => do
      let childItems ← writeCustomNodeList nodeChildren
      pure (WItem.wstr mNodeName :: WItem.wbool false :: WItem.wu32 nodeChildren.length ::
        (childItems ++
          WItem.wu32 nodeFields.length ::
            nodeFields.flatMap (fun pNodeField =>
              [WItem.wstr pNodeField.mFieldName,
               WItem.wlong MAX_TAML_NODE_FIELDVALUE_LENGTH pNodeField.mFieldValue])))
termination_by n => (sizeOf n, 0)
decreasing_by
  all_goals (simp_wf; apply Prod.Lex.left; omega)
end

/-- One event on the output `FileStream` during `TamlBinaryWriter::write`:
a direct write call on the raw stream (`raw`), the attachment of the
`ZipSubWStream` to it (`zipAttach`), a write call routed through the attached
zip stream (`zip`), and its detachment (`zipDetach`). -/
inductive SEvent where
  | raw : WItem → SEvent
  | zipAttach : SEvent
  | zip : WItem → SEvent
  | zipDetach : SEvent
  deriving DecidableEq, Repr

/-- Modelled from the spec: `TAML_SIGNATURE` (tamlCustom.h / taml constants, not
under src/) is "a format signature string"; a plain constant literal. -/
def TAML_SIGNATURE : String := "Taml"

/-- Embeds `TamlBinaryWriter::write`: writes the Taml signature, the version id and the
compressed flag on the raw stream; when `compressed`, attaches a
`ZipSubWStream`, writes the root element through it and detaches it, else
writes the root element on the raw stream; returns `true`.

`streamOk` models the health of the underlying `FileStream` (`false`: the sink
has failed and every underlying write call fails). The source never reads the
stream's status: the parameter does not influence the emitted calls or the
returned value, which is the literal `true` on every completed path. -/
def write (streamOk : Bool) (mVersionId : Nat) (pTamlWriteNode : TamlWriteNode)
    (compressed : Bool) : Option (List SEvent × Bool) := do
  let header : List SEvent :=
    [SEvent.raw (WItem.wstr TAML_SIGNATURE),
     SEvent.raw (WItem.wu32 mVersionId),
     SEvent.raw (WItem.wbool compressed)]
  if compressed then
    let body ← writeElement pTamlWriteNode
    pure (header ++ SEvent.zipAttach :: body.map SEvent.zip ++ [SEvent.zipDetach], true)
  else
    let body ← writeElement pTamlWriteNode
    pure (header ++ body.map SEvent.raw, true)

mutual
/-- The assigned-id-before-reference invariant on a tree, restricted to what the
encoder actually visits: every backreference target reachable during encoding
has a nonzero `mRefId` (an alias node's own body is never visited). -/
def goodRefs : TamlWriteNode → Bool
  | TamlWriteNode.mk _ _ _ (some target) _ _ _ => decide (target.mRefId ≠ 0)
  | TamlWriteNode.mk _ _ _ none _ none customs => goodRefsCustomList customs
  | TamlWriteNode.mk _ _ _ none _ (some cs) customs =>
      goodRefsList cs && goodRefsCustomList customs
termination_by n => (sizeOf n, 1)
decreasing_by
  all_goals (simp_wf; apply Prod.Lex.left; omega)

/-- The invariant over a children vector. -/
def goodRefsList : List TamlWriteNode → Bool
  | [] => true
  | c :: rest => goodRefs c && goodRefsList rest
termination_by l => (sizeOf l, 0)
decreasing_by
  all_goals (simp_wf; apply Prod.Lex.left; omega)

/-- The invariant over a custom-node vector. -/
def goodRefsCustomList : List TamlCustomNode → Bool
  | [] => true
  | c :: rest => goodRefsCustom c && goodRefsCustomList rest
termination_by l => (sizeOf l, 0)
decreasing_by
  all_goals (simp_wf; apply Prod.Lex.left; omega)

/-- The invariant on a custom node: a proxy node's wrapped element satisfies it;
a plain node's children do. -/
def goodRefsCustom : TamlCustomNode → Bool
  | TamlCustomNode.mk _ (some t) _ _ => goodRefs t
  | TamlCustomNode.mk _ none ch _ => goodRefsCustomList ch
termination_by n => (sizeOf n, 0)
decreasing_by
  all_goals (simp_wf; apply Prod.Lex.left; omega)
end

mutual
/-- A fuel-indexed rendition of the recursion of `writeElement`: structurally
recursive on `fuel`, which every recursive call decrements, returning `none`
when fuel runs out. Used to witness termination of the mutual encoders. -/
def writeElementFuel : Nat → TamlWriteNode → Option (List WItem)
  | 0, _ => none
  | fuel + 1, n =>
      let header : List WItem := elementHeader n
      match n.mRefToNode with
      | some target =>
          if target.mRefId = 0 then none
          else some (header ++ [WItem.wu32 target.mRefId])
      | none => do
          let childItems ←
            match n.mChildren with
            | none => pure [WItem.wu32 0]
            | some cs => do
                let body ← writeElementListFuel fuel cs
                pure (WItem.wu32 cs.length :: body)
          let customBody ← writeCustomNodeListFuel fuel n.mCustomNodes
          pure (header ++ [WItem.wu32 0] ++ writeAttributes n ++ childItems ++
            (WItem.wu32 n.mCustomNodes.length :: customBody))

/-- The fuel-indexed rendition of `writeElementList`. -/
def writeElementListFuel : Nat → List TamlWriteNode → Option (List WItem)
  | 0, _ => none
  | _ + 1, [] => pure []
  | fuel + 1, c :: rest => do
      let x ← writeElementFuel fuel c
      let xs ← writeElementListFuel fuel rest
      pure (x ++ xs)

/-- The fuel-indexed rendition of `writeCustomNodeList`. -/
def writeCustomNodeListFuel : Nat → List TamlCustomNode → Option (List WItem)
  | 0, _ => none
  | _ + 1, [] => pure []
  | fuel + 1, c :: rest => do
      let x ← writeCustomNodeFuel fuel c
      let xs ← writeCustomNodeListFuel fuel rest
      pure (x ++ xs)

/-- The fuel-indexed rendition of `writeCustomNode`. -/
def writeCustomNodeFuel : Nat → TamlCustomNode → Option (List WItem)
  | 0, _ => none
  | fuel + 1, TamlCustomNode.mk mNodeName (some proxyNode) _ _ => do
      let e ← writeElementFuel fuel proxyNode
      pure (WItem.wstr mNodeName :: WItem.wbool true :: e)
  | fuel + 1, TamlCustomNode.mk mNodeName none nodeChildren nodeFields => do
      let childItems ← writeCustomNodeListFuel fuel nodeChildren
      pure (WItem.wstr mNodeName :: WItem.wbool false :: WItem.wu32 nodeChildren.length ::
        (childItems ++
          WItem.wu32 nodeFields.length ::
            nodeFields.flatMap (fun pNodeField =>
              [WItem.wstr pNodeField.mFieldName,
               WItem.wlong MAX_TAML_NODE_FIELDVALUE_LENGTH pNodeField.mFieldValue])))
end

/-! Concrete sample inputs used by the witness and counterexample theorems. -/

/-- A sample attribute field. -/
def sampleField : FieldValuePair := ⟨"position", "1 2"⟩

/-- A sample custom-node field. -/
def sampleCustomField : TamlCustomNodeField := ⟨"x", "10"⟩

/-- A node with no fields, no children vector and no custom nodes. -/
def sampleLeaf : TamlWriteNode := TamlWriteNode.mk "SimObject" none 1 none [] none []

/-- A non-proxy custom node carrying one field. -/
def sampleCustom : TamlCustomNode := TamlCustomNode.mk "Joints" none [] [sampleCustomField]

/-- A node with a nonzero assigned reference id, suitable as a backreference
target. -/
def sampleTarget : TamlWriteNode :=
  TamlWriteNode.mk "Sprite" (some "player") 7 none [sampleField] none []

/-- An alias node: its `mRefToNode` is set, and it carries fields, children and
custom nodes that the encoder must not emit. -/
def sampleAlias : TamlWriteNode :=
  TamlWriteNode.mk "Sprite" none 9 (some sampleTarget) [sampleField] (some [sampleLeaf])
    [sampleCustom]

/-- A node whose reference id was never assigned (still `0`): referencing it
violates the assigned-id-before-reference invariant. -/
def sampleBadTarget : TamlWriteNode := TamlWriteNode.mk "Sprite" none 0 none [] none []

/-- A root node exercising fields, children (one alias, one leaf) and custom
nodes at once. -/
def sampleTree : TamlWriteNode :=
  TamlWriteNode.mk "Scene" (some "scene") 2 none [sampleField] (some [sampleAlias, sampleLeaf])
    [sampleCustom]

/-! Helper lemmas shared by the claim theorems. -/

/-- With fuel at least the size of the input, the fuel-indexed encoders compute
exactly what the total encoders compute: the recursion depth of the mutual
encoders is bounded by the size of the input structure. -/
theorem fuelAgree : ∀ fuel : Nat,
    (∀ n : TamlWriteNode, sizeOf n ≤ fuel → writeElementFuel fuel n = writeElement n) ∧
    (∀ cs : List TamlWriteNode, sizeOf cs ≤ fuel →
      writeElementListFuel fuel cs = writeElementList cs) ∧
    (∀ cs : List TamlCustomNode, sizeOf cs ≤ fuel →
      writeCustomNodeListFuel fuel cs = writeCustomNodeList cs) ∧
    (∀ c : TamlCustomNode, sizeOf c ≤ fuel → writeCustomNodeFuel fuel c = writeCustomNode c) := by
  intro fuel
  induction fuel with
  | zero =>
      refine ⟨?_, ?_, ?_, ?_⟩
      · intro n hn; obtain ⟨a, b, r, d, e, f, g⟩ := n; simp at hn
      · intro cs hcs; cases cs <;> simp at hcs
      · intro cs hcs; cases cs <;> simp at hcs
      · intro c hc; obtain ⟨nm, p, ch, fl⟩ := c; simp at hc
  | succ fuel ih =>
      obtain ⟨ihE, ihEL, ihCL, ihC⟩ := ih
      refine ⟨?_, ?_, ?_, ?_⟩
      · intro n hn
        obtain ⟨a, b, r, d, e, f, g⟩ := n
        simp only [TamlWriteNode.mk.sizeOf_spec] at hn
        cases d with
        | some target =>
            simp [writeElementFuel, writeElement, TamlWriteNode.mRefToNode]
        | none =>
            have hg : sizeOf g ≤ fuel := by omega
            cases f with
            | none =>
                simp only [writeElementFuel, writeElement, writeChildren,
                  writeCustomElements, TamlWriteNode.mRefToNode, TamlWriteNode.mChildren,
                  TamlWriteNode.mCustomNodes, ihCL g hg]
                cases writeCustomNodeList g <;> rfl
            | some cs =>
                have hcs : sizeOf cs ≤ fuel := by simp at hn; omega
                simp only [writeElementFuel, writeElement, writeChildren,
                  writeCustomElements, TamlWriteNode.mRefToNode, TamlWriteNode.mChildren,
                  TamlWriteNode.mCustomNodes, ihCL g hg, ihEL cs hcs]
                cases writeElementList cs <;> cases writeCustomNodeList g <;> rfl
      · intro cs hcs
        cases cs with
        | nil => simp [writeElementListFuel, writeElementList]
        | cons c rest =>
            simp only [List.cons.sizeOf_spec] at hcs
            have h1 : sizeOf c ≤ fuel := by omega
            have h2 : sizeOf rest ≤ fuel := by omega
            simp only [writeElementListFuel, writeElementList, ihE c h1, ihEL rest h2]
      · intro cs hcs
        cases cs with
        | nil => simp [writeCustomNodeListFuel, writeCustomNodeList]
        | cons c rest =>
            simp only [List.cons.sizeOf_spec] at hcs
            have h1 : sizeOf c ≤ fuel := by omega
            have h2 : sizeOf rest ≤ fuel := by omega
            simp only [writeCustomNodeListFuel, writeCustomNodeList, ihC c h1, ihCL rest h2]
      · intro c hc
        obtain ⟨nm, p, ch, fl⟩ := c
        simp only [TamlCustomNode.mk.sizeOf_spec] at hc
        cases p with
        | some t =>
            have ht : sizeOf t ≤ fuel := by simp at hc; omega
            simp only [writeCustomNodeFuel, writeCustomNode, ihE t ht]
        | none =>
            have hch : sizeOf ch ≤ fuel := by omega
            simp only [writeCustomNodeFuel, writeCustomNode, ihCL ch hch]

/-- When the assigned-id-before-reference invariant holds on the visited part of
the input, no encoder aborts: the `AssertFatal` branch is unreachable. -/
theorem goodRefs_isSome : ∀ m : Nat,
    (∀ n : TamlWriteNode, sizeOf n ≤ m → goodRefs n = true → (writeElement n).isSome) ∧
    (∀ cs : List TamlWriteNode, sizeOf cs ≤ m → goodRefsList cs = true →
      (writeElementList cs).isSome) ∧
    (∀ cs : List TamlCustomNode, sizeOf cs ≤ m → goodRefsCustomList cs = true →
      (writeCustomNodeList cs).isSome) ∧
    (∀ c : TamlCustomNode, sizeOf c ≤ m → goodRefsCustom c = true →
      (writeCustomNode c).isSome) := by
  intro m
  induction m with
  | zero =>
      refine ⟨?_, ?_, ?_, ?_⟩
      · intro n hn; obtain ⟨a, b, r, d, e, f, g⟩ := n; simp at hn
      · intro cs hcs; cases cs <;> simp at hcs
      · intro cs hcs; cases cs <;> simp at hcs
      · intro c hc; obtain ⟨nm, p, ch, fl⟩ := c; simp at hc
  | succ m ih =>
      obtain ⟨ihE, ihEL, ihCL, ihC⟩ := ih
      refine ⟨?_, ?_, ?_, ?_⟩
      · intro n hn hg
        obtain ⟨a, b, r, d, e, f, g⟩ := n
        simp only [TamlWriteNode.mk.sizeOf_spec] at hn
        cases d with
        | some target =>
            simp only [goodRefs, decide_eq_true_eq] at hg
            simp [writeElement, TamlWriteNode.mRefToNode, hg]
        | none =>
            have hgm : sizeOf g ≤ m := by omega
            cases f with
            | none =>
                simp only [goodRefs] at hg
                rcases Option.isSome_iff_exists.mp (ihCL g hgm hg) with ⟨v, hv⟩
                simp [writeElement, writeChildren, writeCustomElements,
                  TamlWriteNode.mRefToNode, TamlWriteNode.mChildren,
                  TamlWriteNode.mCustomNodes, hv]
            | some cs =>
                have hcsm : sizeOf cs ≤ m := by simp at hn; omega
                simp only [goodRefs, Bool.and_eq_true] at hg
                rcases Option.isSome_iff_exists.mp (ihEL cs hcsm hg.1) with ⟨v1, hv1⟩
                rcases Option.isSome_iff_exists.mp (ihCL g hgm hg.2) with ⟨v2, hv2⟩
                simp [writeElement, writeChildren, writeCustomElements,
                  TamlWriteNode.mRefToNode, TamlWriteNode.mChildren,
                  TamlWriteNode.mCustomNodes, hv1, hv2]
      · intro cs hcs hg
        cases cs with
        | nil => simp [writeElementList]
        | cons c rest =>
            simp only [List.cons.sizeOf_spec] at hcs
            simp only [goodRefsList, Bool.and_eq_true] at hg
            rcases Option.isSome_iff_exists.mp (ihE c (by omega) hg.1) with ⟨v1, hv1⟩
            rcases Option.isSome_iff_exists.mp (ihEL rest (by omega) hg.2) with ⟨v2, hv2⟩
            simp [writeElementList, hv1, hv2]
      · intro cs hcs hg
        cases cs with
        | nil => simp [writeCustomNodeList]
        | cons c rest =>
            simp only [List.cons.sizeOf_spec] at hcs
            simp only [goodRefsCustomList, Bool.and_eq_true] at hg
            rcases Option.isSome_iff_exists.mp (ihC c (by omega) hg.1) with ⟨v1, hv1⟩
            rcases Option.isSome_iff_exists.mp (ihCL rest (by omega) hg.2) with ⟨v2, hv2⟩
            simp [writeCustomNodeList, hv1, hv2]
      · intro c hc hg
        obtain ⟨nm, p, ch, fl⟩ := c
        simp only [TamlCustomNode.mk.sizeOf_spec] at hc
        cases p with
        | some t =>
            simp only [goodRefsCustom] at hg
            rcases Option.isSome_iff_exists.mp (ihE t (by simp at hc; omega) hg) with ⟨v, hv⟩
            simp [writeCustomNode, hv]
        | none =>
            simp only [goodRefsCustom] at hg
            rcases Option.isSome_iff_exists.mp (ihCL ch (by omega) hg) with ⟨v, hv⟩
            simp [writeCustomNode, hv]

/-! The claim theorems. -/

/-- Claim C1: for every node whose `mRefToNode` is set, `writeElement` writes the
element header (class name, object name with the empty-string sentinel, the
node's reference id), then the target's reference id, and stops: no attribute,
child or custom-node items follow. -/
theorem writeElement_backref_shortCircuit (n target : TamlWriteNode)
    (href : n.mRefToNode = some target) (hid : target.mRefId ≠ 0) :
    writeElement n = some (elementHeader n ++ [WItem.wu32 target.mRefId]) := by
  simp only [writeElement, href]
  simp [hid]

/-- Witness for C1: the alias node's entire output is its header plus the
target's id `7`, although it carries a field, a child and a custom node. -/
theorem writeElement_backref_shortCircuit_witness :
    writeElement sampleAlias = some (elementHeader sampleAlias ++ [WItem.wu32 7]) :=
  writeElement_backref_shortCircuit sampleAlias sampleTarget rfl (by decide)

/-- Claim C2: for every node whose `mRefToNode` is not set, `writeElement`
writes, after the header and the node's id, the literal `0` ("no
backreference"), then exactly the attributes, then the children, then the
custom nodes, in that fixed order. -/
theorem writeElement_noBackref_fixedOrder (n : TamlWriteNode) (h : n.mRefToNode = none)
    (c k : List WItem) (hc : writeChildren n = some c) (hk : writeCustomElements n = some k) :
    writeElement n = some (elementHeader n ++ [WItem.wu32 0] ++ writeAttributes n ++ c ++ k) := by
  simp only [writeElement, h, hc, hk]
  rfl

/-- Witness for C2: the sample tree's element encoding is its header, the `0`
marker, its attribute items, its children items, then its custom-node items. -/
theorem writeElement_noBackref_fixedOrder_witness :
    writeElement sampleTree = some (elementHeader sampleTree ++ [WItem.wu32 0] ++
      writeAttributes sampleTree ++
      [WItem.wu32 2, WItem.wstr "Sprite", WItem.wstr "", WItem.wu32 9, WItem.wu32 7,
       WItem.wstr "SimObject", WItem.wstr "", WItem.wu32 1, WItem.wu32 0, WItem.wu32 0,
       WItem.wu32 0, WItem.wu32 0] ++
      [WItem.wu32 1, WItem.wstr "Joints", WItem.wbool false, WItem.wu32 0, WItem.wu32 1,
       WItem.wstr "x", WItem.wlong MAX_TAML_NODE_FIELDVALUE_LENGTH "10"]) :=
  writeElement_noBackref_fixedOrder sampleTree rfl _ _
    (by simp [sampleTree, sampleAlias, sampleTarget, sampleLeaf, sampleCustom, sampleField,
      sampleCustomField, writeChildren, writeElementList, writeElement, writeAttributes,
      writeCustomElements, writeCustomNodeList, writeCustomNode, elementHeader,
      TamlWriteNode.className, TamlWriteNode.mpObjectName, TamlWriteNode.mRefId,
      TamlWriteNode.mRefToNode, TamlWriteNode.mFields, TamlWriteNode.mChildren,
      TamlWriteNode.mCustomNodes])
    (by simp [sampleTree, sampleAlias, sampleTarget, sampleLeaf, sampleCustom, sampleField,
      sampleCustomField, writeCustomElements, writeCustomNodeList, writeCustomNode,
      MAX_TAML_NODE_FIELDVALUE_LENGTH, TamlWriteNode.mCustomNodes,
      TamlCustomNode.mNodeName, TamlCustomNode.proxyWriteNode, TamlCustomNode.children,
      TamlCustomNode.fields])

/-- Claim C3: `write` first emits the signature string, the version id and the
compressed flag as raw (uncompressed) stream writes; with compression requested
it then attaches the zip stream, routes the whole root element through it and
detaches it as the final action; without compression the root element goes
directly to the raw stream. -/
theorem write_header_and_compression (streamOk : Bool) (v : Nat) (n : TamlWriteNode) :
    write streamOk v n true = (writeElement n).map (fun body =>
      ([SEvent.raw (WItem.wstr TAML_SIGNATURE), SEvent.raw (WItem.wu32 v),
        SEvent.raw (WItem.wbool true)] ++
        SEvent.zipAttach :: body.map SEvent.zip ++ [SEvent.zipDetach], true)) ∧
    write streamOk v n false = (writeElement n).map (fun body =>
      ([SEvent.raw (WItem.wstr TAML_SIGNATURE), SEvent.raw (WItem.wu32 v),
        SEvent.raw (WItem.wbool false)] ++ body.map SEvent.raw, true)) := by
  constructor <;> (simp only [write]; cases writeElement n <;> simp)

/-- Claim C4: `writeCustomNode` writes the node name then the proxy flag; on a
proxy node it encodes the single wrapped element and stops (no child count and
no field count); on a plain node it writes the child custom-node count, each
child custom node in order, the field count and the field name/value pairs in
order, values bounded to `MAX_TAML_NODE_FIELDVALUE_LENGTH`. -/
theorem writeCustomNode_branches :
    (∀ nm t ch fl, writeCustomNode (TamlCustomNode.mk nm (some t) ch fl) =
        (writeElement t).map (fun e => WItem.wstr nm :: WItem.wbool true :: e)) ∧
    (∀ nm ch fl, writeCustomNode (TamlCustomNode.mk nm none ch fl) =
        (writeCustomNodeList ch).map (fun childItems =>
          WItem.wstr nm :: WItem.wbool false :: WItem.wu32 ch.length ::
            (childItems ++
              WItem.wu32 fl.length ::
                fl.flatMap (fun f =>
                  [WItem.wstr f.mFieldName,
                   WItem.wlong MAX_TAML_NODE_FIELDVALUE_LENGTH f.mFieldValue])))) ∧
    (∀ c rest, writeCustomNodeList (c :: rest) = do
        let x ← writeCustomNode c
        let xs ← writeCustomNodeList rest
        pure (x ++ xs)) ∧
    writeCustomNodeList [] = some [] := by
  refine ⟨?_, ?_, ?_, ?_⟩
  · intro nm t ch fl
    simp only [writeCustomNode]
    cases writeElement t <;> simp
  · intro nm ch fl
    simp only [writeCustomNode]
    cases writeCustomNodeList ch <;> simp
  · intro c rest
    simp only [writeCustomNodeList]
  · simp [writeCustomNodeList]

/-- Claim C5: `writeAttributes` writes the field count, then for each field in
array order its name and its value bounded to `4096`; with zero fields only the
count `0` is written. -/
theorem writeAttributes_countAndPairs (n : TamlWriteNode) :
    writeAttributes n =
      WItem.wu32 n.mFields.length ::
        n.mFields.flatMap (fun fv => [WItem.wstr fv.mName, WItem.wlong 4096 fv.mpValue]) ∧
    (n.mFields = [] → writeAttributes n = [WItem.wu32 0]) := by
  constructor
  · simp only [writeAttributes]
    split
    · next hz => simp [List.length_eq_zero.mp hz, hz]
    · rfl
  · intro h; simp [writeAttributes, h]

/-- Witness for C5: a node with no fields emits exactly the count `0`. -/
theorem writeAttributes_countAndPairs_witness :
    writeAttributes sampleLeaf = [WItem.wu32 0] :=
  (writeAttributes_countAndPairs sampleLeaf).2 rfl

/-- Claim C6: `writeChildren` writes the child count then each child's recursive
element encoding in array order, and an absent (`NULL`) children vector emits
exactly the same items as a present-but-empty one: the single count `0`. -/
theorem writeChildren_countAndOrder :
    (∀ a b r d e (cs : List TamlWriteNode) g,
        writeChildren (TamlWriteNode.mk a b r d e (some cs) g) =
          (writeElementList cs).map (fun body => WItem.wu32 cs.length :: body)) ∧
    (∀ c rest, writeElementList (c :: rest) = do
        let x ← writeElement c
        let xs ← writeElementList rest
        pure (x ++ xs)) ∧
    writeElementList [] = some [] ∧
    (∀ a b r d e g, writeChildren (TamlWriteNode.mk a b r d e none g) =
        writeChildren (TamlWriteNode.mk a b r d e (some []) g)) := by
  refine ⟨?_, ?_, ?_, ?_⟩
  · intro a b r d e cs g
    simp only [writeChildren]
    cases writeElementList cs <;> simp
  · intro c rest
    simp only [writeElementList]
  · simp [writeElementList]
  · intro a b r d e g
    simp [writeChildren, writeElementList]

/-- Claim C7 counterexample: with the underlying sink already failed
(`streamOk = false`, every underlying write call fails), `write` still completes
and returns `true` — the claimed propagation of I/O failure to the caller does
not happen at this concrete input. -/
theorem write_failedStream_counterexample :
    write false 1 sampleLeaf false =
      some ([SEvent.raw (WItem.wstr TAML_SIGNATURE), SEvent.raw (WItem.wu32 1),
        SEvent.raw (WItem.wbool false)] ++
        ([WItem.wstr "SimObject", WItem.wstr "", WItem.wu32 1, WItem.wu32 0, WItem.wu32 0,
          WItem.wu32 0, WItem.wu32 0].map SEvent.raw), true) := by
  simp [write, sampleLeaf, writeElement, writeChildren, writeCustomElements,
    writeCustomNodeList, writeAttributes, elementHeader,
    TamlWriteNode.className, TamlWriteNode.mpObjectName, TamlWriteNode.mRefId,
    TamlWriteNode.mRefToNode, TamlWriteNode.mFields, TamlWriteNode.mChildren,
    TamlWriteNode.mCustomNodes]

/-- Claim C7 as amended: the return value of `write` is independent of the health
of the underlying stream, and is `true` whenever the encode completes — the
caller cannot learn of an underlying I/O failure from it (the source ignores
every stream write's status; no retry and no partial recovery happen either). -/
theorem write_returnValue_constantTrue (streamOk : Bool) (v : Nat) (n : TamlWriteNode)
    (c : Bool) :
    write streamOk v n c = write true v n c ∧
    (write streamOk v n c).map Prod.snd = (writeElement n).map (fun _ => true) := by
  constructor
  · rfl
  · cases c <;> (simp only [write]; cases writeElement n <;> simp)

/-- Claim C8: referencing a target whose id is still `0` makes the encoder abort
(`AssertFatal`, modelled as `none`) instead of emitting the `0`; under the
assigned-id-before-reference invariant (`goodRefs`) the abort branch is
unreachable, and the backreference id emitted for an alias node is its target's
nonzero id. -/
theorem writeElement_backrefInvariant :
    (∀ a b r (t : TamlWriteNode) e f g, t.mRefId = 0 →
        writeElement (TamlWriteNode.mk a b r (some t) e f g) = none) ∧
    (∀ n : TamlWriteNode, goodRefs n = true → (writeElement n).isSome) ∧
    (∀ a b r (t : TamlWriteNode) e f g,
        goodRefs (TamlWriteNode.mk a b r (some t) e f g) = true →
        t.mRefId ≠ 0 ∧
          writeElement (TamlWriteNode.mk a b r (some t) e f g) =
            some (elementHeader (TamlWriteNode.mk a b r (some t) e f g) ++
              [WItem.wu32 t.mRefId])) := by
  refine ⟨?_, ?_, ?_⟩
  · intro a b r t e f g h
    simp [writeElement, TamlWriteNode.mRefToNode, h]
  · intro n hg
    exact (goodRefs_isSome (sizeOf n)).1 n le_rfl hg
  · intro a b r t e f g hg
    simp only [goodRefs, decide_eq_true_eq] at hg
    refine ⟨hg, ?_⟩
    simp [writeElement, TamlWriteNode.mRefToNode, hg]

/-- Witness for C8: referencing the unassigned-id target aborts; the sample tree
satisfies the invariant and encodes; the sample alias emits its target's
nonzero id `7`. -/
theorem writeElement_backrefInvariant_witness :
    writeElement (TamlWriteNode.mk "Sprite" none 9 (some sampleBadTarget) [] none []) = none ∧
    (writeElement sampleTree).isSome ∧
    (sampleTarget.mRefId ≠ 0 ∧
      writeElement (TamlWriteNode.mk "Sprite" none 9 (some sampleTarget) [sampleField]
          (some [sampleLeaf]) [sampleCustom]) =
        some (elementHeader (TamlWriteNode.mk "Sprite" none 9 (some sampleTarget) [sampleField]
          (some [sampleLeaf]) [sampleCustom]) ++ [WItem.wu32 sampleTarget.mRefId])) :=
  ⟨writeElement_backrefInvariant.1 _ _ _ _ _ _ _ rfl,
   writeElement_backrefInvariant.2.1 sampleTree
     (by simp [sampleTree, sampleAlias, sampleTarget, sampleLeaf, sampleCustom, goodRefs,
       goodRefsList, goodRefsCustomList, goodRefsCustom, TamlWriteNode.mRefId]),
   writeElement_backrefInvariant.2.2 _ _ _ _ _ _ _
     (by simp [sampleTarget, goodRefs, TamlWriteNode.mRefId])⟩

/-- Claim C9: a node with no backreference, no fields, no children (absent or
empty vector) and no custom nodes emits, after its header and the `0`
no-backreference marker, exactly three zero counts and nothing else. -/
theorem writeElement_emptyNode_threeZeroCounts (cn : String) (objName : Option String)
    (rid : Nat) :
    writeElement (TamlWriteNode.mk cn objName rid none [] none []) =
      some ([WItem.wstr cn, WItem.wstr (objName.getD ""), WItem.wu32 rid, WItem.wu32 0] ++
        [WItem.wu32 0, WItem.wu32 0, WItem.wu32 0]) ∧
    writeElement (TamlWriteNode.mk cn objName rid none [] (some []) []) =
      some ([WItem.wstr cn, WItem.wstr (objName.getD ""), WItem.wu32 rid, WItem.wu32 0] ++
        [WItem.wu32 0, WItem.wu32 0, WItem.wu32 0]) := by
  constructor <;>
    simp [writeElement, writeChildren, writeCustomElements, writeCustomNodeList,
      writeElementList, writeAttributes, elementHeader,
      TamlWriteNode.className, TamlWriteNode.mpObjectName, TamlWriteNode.mRefId,
      TamlWriteNode.mRefToNode, TamlWriteNode.mFields, TamlWriteNode.mChildren,
      TamlWriteNode.mCustomNodes]

/-- Claim C10: the mutually recursive encoders terminate on every finite input:
with fuel equal to the input's size, the structurally fuel-bounded encoders
already compute the total encoders' results; and an alias node never recurses
into its target — replacing the target's whole body (backreference, fields,
children, custom nodes) changes nothing in the alias's encoding. -/
theorem encoders_terminate :
    (∀ n : TamlWriteNode, writeElementFuel (sizeOf n) n = writeElement n) ∧
    (∀ cs : List TamlWriteNode, writeElementListFuel (sizeOf cs) cs = writeElementList cs) ∧
    (∀ cs : List TamlCustomNode, writeCustomNodeListFuel (sizeOf cs) cs = writeCustomNodeList cs) ∧
    (∀ c : TamlCustomNode, writeCustomNodeFuel (sizeOf c) c = writeCustomNode c) ∧
    (∀ a b r e f g (t : TamlWriteNode),
        writeElement (TamlWriteNode.mk a b r (some t) e f g) =
          writeElement (TamlWriteNode.mk a b r
            (some (TamlWriteNode.mk t.className t.mpObjectName t.mRefId none [] none []))
            e f g)) := by
  refine ⟨fun n => (fuelAgree (sizeOf n)).1 n le_rfl,
    fun cs => (fuelAgree (sizeOf cs)).2.1 cs le_rfl,
    fun cs => (fuelAgree (sizeOf cs)).2.2.1 cs le_rfl,
    fun c => (fuelAgree (sizeOf c)).2.2.2 c le_rfl, ?_⟩
  intro a b r e f g t
  simp [writeElement, TamlWriteNode.mRefToNode, TamlWriteNode.mRefId, elementHeader,
    TamlWriteNode.className, TamlWriteNode.mpObjectName]

end TamlBinary
